import Mathlib

/-!
Shallow embedding of the two-player Wordle backend server (`src/index.js`).

The server keeps two global registries (`rooms`, `players`), evaluates
guesses with a two-pass Wordle algorithm (`evaluateGuess`), projects a
sanitized per-recipient view of a room (`createGameStateForPlayer`) and
handles the socket events `createRoom`, `joinRoom`, `startGame`,
`submitGuess`, `restartGame` and `disconnect`.

JavaScript `Map`s are embedded as association lists with the same
replace-on-set semantics; randomness (room ids, target words) and the
external dictionary lookup are parameters of the corresponding operations;
socket emissions are returned as an explicit list of addressed messages.
-/

namespace WordleServer

/-- The three per-letter evaluation labels of the Wordle rules. -/
inductive LetterState
  | correct
  | present
  | absent
deriving DecidableEq, Repr

/-! ## Association-list embedding of JavaScript `Map` -/

/-- `Map.get`: value at the first matching key. -/
def aget {α : Type} : List (String × α) → String → Option α
  | [], _ => none
  | (k2, v) :: rest, k => if k2 = k then some v else aget rest k

/-- `Map.set`: replace the value at an existing key, else append. -/
def aset {α : Type} : List (String × α) → String → α → List (String × α)
  | [], k, v => [(k, v)]
  | (k2, v2) :: rest, k, v =>
      if k2 = k then (k, v) :: rest else (k2, v2) :: aset rest k v

/-- `Map.delete`: remove every pair at the key. -/
def adel {α : Type} : List (String × α) → String → List (String × α)
  | [], _ => []
  | (k2, v2) :: rest, k =>
      if k2 = k then adel rest k else (k2, v2) :: adel rest k

/-! ## Guess evaluation (`evaluateGuess`, `src/index.js` lines 586-615)

Pass 1 walks guess and target together: an exact positional match is
labelled `correct` and both characters are consumed (`null` in the source).
Pass 2 walks the remaining guess characters left to right, consuming the
first unconsumed matching target character (`Array.indexOf` plus a `null`
assignment) for a `present` label, else labelling `absent`. -/

/-- A position after pass 1: already resolved `correct` with its guess
character, or still pending with its guess character. -/
inductive Slot
  | hit (c : Char)
  | pend (c : Char)
deriving DecidableEq, Repr

/-- Pass 1: positional matches become `hit` and erase the target character. -/
def pass1 : List Char → List Char → List Slot × List (Option Char)
  | g :: gs, t :: ts =>
      let rest := pass1 gs ts
      if g = t then (Slot.hit g :: rest.1, none :: rest.2)
      else (Slot.pend g :: rest.1, some t :: rest.2)
  | _, _ => ([], [])

/-- `targetArray.indexOf(c)` followed by `targetArray[i] = null`: erase the
first unconsumed occurrence of `c`, or report that there is none. -/
def consumeFirst (c : Char) : List (Option Char) → Option (List (Option Char))
  | [] => none
  | t :: ts =>
      if t = some c then some (none :: ts)
      else
        match consumeFirst c ts with
        | some ts2 => some (t :: ts2)
        | none => none

/-- Pass 2: pending positions become `present` (consuming a target
character) or `absent`. -/
def pass2 : List Slot → List (Option Char) → List LetterState
  | [], _ => []
  | Slot.hit _ :: rest, tgt => LetterState.correct :: pass2 rest tgt
  | Slot.pend c :: rest, tgt =>
      match consumeFirst c tgt with
      | some tgt2 => LetterState.present :: pass2 rest tgt2
      | none => LetterState.absent :: pass2 rest tgt

/-- `evaluateGuess(guess, targetWord)`: the two-pass Wordle evaluation. -/
def evaluateGuess (guess targetWord : String) : List LetterState :=
  let p := pass1 guess.toList targetWord.toList
  pass2 p.1 p.2

/-! ## Counting functions used to state the multiset bound -/

/-- Occurrences of a character in a word. -/
def charCount (c : Char) : List Char → Nat
  | [] => 0
  | t :: ts => (if t = c then 1 else 0) + charCount c ts

/-- Occurrences of a still-unconsumed character in a marked target. -/
def optCount (c : Char) : List (Option Char) → Nat
  | [] => 0
  | t :: ts => (if t = some c then 1 else 0) + optCount c ts

/-- Pass-1 `correct` positions carrying a given character. -/
def hitCount (c : Char) : List Slot → Nat
  | [] => 0
  | Slot.hit a :: ss => (if a = c then 1 else 0) + hitCount c ss
  | Slot.pend _ :: ss => hitCount c ss

/-- The guess character a slot carries. -/
def slotChar : Slot → Char
  | Slot.hit c => c
  | Slot.pend c => c

/-- Positions of the guess labelled `correct` or `present` for a given
character (the claim's credited count). -/
def creditCount (c : Char) : List Char → List LetterState → Nat
  | g :: gs, l :: ls =>
      (if g = c ∧ (l = LetterState.correct ∨ l = LetterState.present) then 1 else 0) +
        creditCount c gs ls
  | _, _ => 0

/-- `creditCount` read off slots instead of raw guess characters. -/
def creditS (c : Char) : List Slot → List LetterState → Nat
  | s :: ss, l :: ls =>
      (if slotChar s = c ∧ (l = LetterState.correct ∨ l = LetterState.present) then 1 else 0) +
        creditS c ss ls
  | _, _ => 0

/-! ## Server data model (`src/index.js` lines 550-552, 617-650) -/

/-- A `players` registry record. -/
structure Player where
  id : String
  roomId : String
  isHost : Bool
deriving DecidableEq, Repr

/-- A `rooms` registry record.  `quitReason` starts absent and is assigned
only by the disconnect handler. -/
structure Room where
  id : String
  players : List String
  word : String
  gameStarted : Bool
  playerGuesses : List (String × List String)
  playerGuessStates : List (String × List (List LetterState))
  gameOver : Bool
  winner : Option String
  quitReason : Option String
deriving DecidableEq, Repr

/-- The two global registries. -/
structure ServerState where
  rooms : List (String × Room)
  players : List (String × Player)
deriving DecidableEq, Repr

/-- The per-recipient sanitized projection built by
`createGameStateForPlayer`: `word` and `playerGuesses` are `undefined` /
missing until the game is over. -/
structure GameState where
  gameStarted : Bool
  gameOver : Bool
  winner : Option String
  word : Option String
  players : List String
  playerGuessStates : List (String × List (List LetterState))
  playerGuessesCount : List (String × Nat)
  myGuesses : List String
  myGuessStates : List (List LetterState)
  playerGuesses : Option (List (String × List String))
  quitReason : Option String
deriving DecidableEq, Repr

/-- A socket message with its payload. -/
inductive EmitMsg
  | errorMsg (message : String)
  | playerJoinedMsg (playerId : String) (playerCount : Nat)
  | playerLeftMsg (playerId : String) (playerCount : Nat)
  | gameStartedMsg (state : GameState)
  | gameStateUpdateMsg (state : GameState)
  | gameOverMsg (state : GameState)
  | gameRestartedMsg (state : GameState)
deriving DecidableEq, Repr

/-- A message addressed to one connection. -/
structure Emit where
  dest : String
  msg : EmitMsg
deriving DecidableEq, Repr

/-- `room.playerGuesses.get(q) || []`. -/
def guessesOf (room : Room) (q : String) : List String :=
  (aget room.playerGuesses q).getD []

/-- `room.playerGuessStates.get(q) || []`. -/
def statesOf (room : Room) (q : String) : List (List LetterState) :=
  (aget room.playerGuessStates q).getD []

/-- `createGameStateForPlayer(room, playerId)` (lines 617-650): evaluation
sequences and guess counts of every player are always exposed; the literal
guesses of all players and the target word only once `gameOver` is true;
`myGuesses` always carries the recipient's own guesses. -/
def createGameStateForPlayer (room : Room) (playerId : String) : GameState :=
  { gameStarted := room.gameStarted
    gameOver := room.gameOver
    winner := room.winner
    word := if room.gameOver then some room.word else none
    players := room.players
    playerGuessStates := room.players.map fun pid => (pid, statesOf room pid)
    playerGuessesCount := room.players.map fun pid => (pid, (guessesOf room pid).length)
    myGuesses := guessesOf room playerId
    myGuessStates := statesOf room playerId
    playerGuesses :=
      if room.gameOver then some (room.players.map fun pid => (pid, guessesOf room pid))
      else none
    quitReason := none }

/-! ## Event handlers (`io.on("connection")`, lines 653-971)

Randomness (`generateRoomId`, `getRandomWord`) and the asynchronous
dictionary lookup (`isValidWord`) are external inputs, so they appear as
parameters of the corresponding handlers.  Each handler returns the new
registries together with the list of messages it emits. -/

/-- `socket.on("createRoom")` (lines 657-682). -/
def createRoom (st : ServerState) (pid roomId word : String) : ServerState × List Emit :=
  ({ st with
      rooms := aset st.rooms roomId
        { id := roomId, players := [pid], word := word, gameStarted := false,
          playerGuesses := [], playerGuessStates := [], gameOver := false,
          winner := none, quitReason := none }
      players := aset st.players pid { id := pid, roomId := roomId, isHost := true } },
   [])

/-- `socket.on("joinRoom")` (lines 685-721); the callback error replies
carry no emits. -/
def joinRoom (st : ServerState) (pid roomId : String) : ServerState × List Emit :=
  match aget st.rooms roomId with
  | none => (st, [])
  | some room =>
      if 2 ≤ room.players.length then (st, [])
      else if room.gameStarted then (st, [])
      else
        let room1 := { room with players := room.players ++ [pid] }
        ({ st with
            rooms := aset st.rooms roomId room1
            players := aset st.players pid { id := pid, roomId := roomId, isHost := false } },
         room1.players.map fun q => ⟨q, EmitMsg.playerJoinedMsg pid room1.players.length⟩)

/-- `room.players.forEach(pid => map.set(pid, []))`: reinitialize each
listed player's entry. -/
def resetEach {α : Type} (m : List (String × α)) (ps : List String) (v : α) :
    List (String × α) :=
  ps.foldl (fun acc q => aset acc q v) m

/-- `socket.on("startGame")` (lines 724-754). -/
def startGame (st : ServerState) (pid : String) : ServerState × List Emit :=
  match aget st.players pid with
  | none => (st, [])
  | some player =>
      match aget st.rooms player.roomId with
      | none => (st, [])
      | some room =>
          if player.isHost = false then (st, [])
          else if room.players.length < 2 then
            (st, [⟨pid, EmitMsg.errorMsg "Need at least 2 players to start"⟩])
          else
            let room1 :=
              { room with
                  gameStarted := true
                  playerGuesses := resetEach room.playerGuesses room.players []
                  playerGuessStates := resetEach room.playerGuessStates room.players [] }
            ({ st with rooms := aset st.rooms player.roomId room1 },
             room1.players.map fun q =>
               ⟨q, EmitMsg.gameStartedMsg (createGameStateForPlayer room1 q)⟩)

/-- `guess.length !== 5 || !/^[A-Z]+$/.test(guess)`, negated: exactly 5
characters, each an uppercase ASCII letter. -/
def validGuessFormat (g : String) : Bool :=
  decide (g.length = 5) && g.toList.all fun c => decide ('A' ≤ c) && decide (c ≤ 'Z')

/-- `evaluation.every(state => state === "correct")`. -/
def isAllCorrect : List LetterState → Bool
  | [] => true
  | LetterState.correct :: rest => isAllCorrect rest
  | _ => false

/-- `states.some(states => states.every(state => state === "correct"))`. -/
def anyAllCorrect : List (List LetterState) → Bool
  | [] => false
  | ss :: rest => isAllCorrect ss || anyAllCorrect rest

/-- `room.players.find(p => p !== socket.id)`. -/
def findOther : List String → String → Option String
  | [], _ => none
  | q :: rest, pid => if q = pid then findOther rest pid else some q

/-- A personalized `gameOver` emission to every occupant. -/
def gameOverEmitsAll (room : Room) : List Emit :=
  room.players.map fun q => ⟨q, EmitMsg.gameOverMsg (createGameStateForPlayer room q)⟩

/-- A personalized `gameStateUpdate` emission to every occupant. -/
def updateEmitsAll (room : Room) : List Emit :=
  room.players.map fun q => ⟨q, EmitMsg.gameStateUpdateMsg (createGameStateForPlayer room q)⟩

/-- The part of `socket.on("submitGuess")` after `await isValidWord(guess)`
resolves (lines 778-865): reject an invalid word, otherwise append the
guess and its evaluation to the submitter's histories and run end-of-turn
resolution on the captured room. -/
def submitGuessResume (room : Room) (pid guess : String) (isValid : Bool) :
    Room × List Emit :=
  if isValid = false then (room, [⟨pid, EmitMsg.errorMsg "Not in dictionary"⟩])
  else
    let newGuesses := guessesOf room pid ++ [guess]
    let evaluation := evaluateGuess guess room.word
    let newStates := statesOf room pid ++ [evaluation]
    let room1 :=
      { room with
          playerGuesses := aset room.playerGuesses pid newGuesses
          playerGuessStates := aset room.playerGuessStates pid newStates }
    if isAllCorrect evaluation = true then
      let room2 := { room1 with gameOver := true, winner := some pid }
      (room2, gameOverEmitsAll room2)
    else
      let step :=
        if 6 ≤ newGuesses.length then
          let otherPlayer := findOther room1.players pid
          let otherGuesses :=
            (otherPlayer.bind fun o => aget room1.playerGuesses o).getD []
          let otherStates :=
            (otherPlayer.bind fun o => aget room1.playerGuessStates o).getD []
          let otherWon := anyAllCorrect otherStates
          if 6 ≤ otherGuesses.length ∨ otherWon = true then
            let room2 :=
              { room1 with
                  gameOver := true
                  winner := if otherWon = true then otherPlayer else none }
            (room2, gameOverEmitsAll room2)
          else (room1, ([] : List Emit))
        else (room1, ([] : List Emit))
      if step.1.gameOver then step
      else (step.1, step.2 ++ updateEmitsAll step.1)

/-- `socket.on("submitGuess")` (lines 757-866): the synchronous checks in
source order, then the post-lookup continuation. -/
def submitGuess (st : ServerState) (pid guess : String) (isValid : Bool) :
    ServerState × List Emit :=
  match aget st.players pid with
  | none => (st, [])
  | some player =>
      match aget st.rooms player.roomId with
      | none => (st, [])
      | some room =>
          if room.gameStarted = false ∨ room.gameOver = true then (st, [])
          else if validGuessFormat guess = false then
            (st, [⟨pid, EmitMsg.errorMsg "Invalid guess. Must be 5 letters."⟩])
          else if 6 ≤ (guessesOf room pid).length then
            (st, [⟨pid, EmitMsg.errorMsg "You have already used all 6 guesses."⟩])
          else
            let resumed := submitGuessResume room pid guess isValid
            ({ st with rooms := aset st.rooms player.roomId resumed.1 }, resumed.2)

/-- `socket.on("restartGame")` (lines 869-900): no host check and no phase
check; a fresh word, cleared histories, `started` forced to true. -/
def restartGame (st : ServerState) (pid newWord : String) : ServerState × List Emit :=
  match aget st.players pid with
  | none => (st, [])
  | some player =>
      match aget st.rooms player.roomId with
      | none => (st, [])
      | some room =>
          let room1 :=
            { room with
                word := newWord
                gameStarted := true
                gameOver := false
                winner := none
                playerGuesses := resetEach room.playerGuesses room.players []
                playerGuessStates := resetEach room.playerGuessStates room.players [] }
          ({ st with rooms := aset st.rooms player.roomId room1 },
           room1.players.map fun q =>
             ⟨q, EmitMsg.gameRestartedMsg (createGameStateForPlayer room1 q)⟩)

/-- `room.players.filter(p => p !== socket.id)`. -/
def removeAllStr : List String → String → List String
  | [], _ => []
  | p :: rest, pid =>
      if p = pid then removeAllStr rest pid else p :: removeAllStr rest pid

/-- `socket.on("disconnect")` (lines 927-970): drop the player from its
room, delete an emptied room, otherwise notify the survivors and — when a
game was in progress — end it with no winner, marking the quit. -/
def disconnect (st : ServerState) (pid : String) : ServerState × List Emit :=
  match aget st.players pid with
  | none => (st, [])
  | some player =>
      match aget st.rooms player.roomId with
      | none => ({ st with players := adel st.players pid }, [])
      | some room =>
          match removeAllStr room.players pid with
          | [] =>
              ({ st with
                  rooms := adel st.rooms player.roomId
                  players := adel st.players pid }, [])
          | remaining :: rest =>
              let newPlayers := remaining :: rest
              let leftEmits :=
                newPlayers.map fun q => ⟨q, EmitMsg.playerLeftMsg pid newPlayers.length⟩
              if room.gameStarted = true ∧ room.gameOver = false then
                let room2 :=
                  { room with
                      players := newPlayers
                      gameOver := true
                      winner := none
                      quitReason := some "opponent_quit" }
                let gs :=
                  { createGameStateForPlayer room2 remaining with
                      quitReason := some "opponent_quit" }
                ({ st with
                    rooms := aset st.rooms player.roomId room2
                    players := adel st.players pid },
                 leftEmits ++ [⟨remaining, EmitMsg.gameOverMsg gs⟩])
              else
                ({ st with
                    rooms := aset st.rooms player.roomId { room with players := newPlayers }
                    players := adel st.players pid },
                 leftEmits)

/-! ## Operation traces -/

/-- One inbound event with its external inputs resolved. -/
inductive Op
  | createRoomOp (pid roomId word : String)
  | joinRoomOp (pid roomId : String)
  | startGameOp (pid : String)
  | submitGuessOp (pid guess : String) (isValid : Bool)
  | restartGameOp (pid newWord : String)
  | disconnectOp (pid : String)
deriving DecidableEq, Repr

/-- The registry after one event (emissions discarded). -/
def applyOp (st : ServerState) : Op → ServerState
  | Op.createRoomOp pid roomId word => (createRoom st pid roomId word).1
  | Op.joinRoomOp pid roomId => (joinRoom st pid roomId).1
  | Op.startGameOp pid => (startGame st pid).1
  | Op.submitGuessOp pid guess isValid => (submitGuess st pid guess isValid).1
  | Op.restartGameOp pid newWord => (restartGame st pid newWord).1
  | Op.disconnectOp pid => (disconnect st pid).1

/-- The registry after a sequence of events. -/
def applyOps (ops : List Op) (st : ServerState) : ServerState :=
  ops.foldl applyOp st

/-- The registries at process start: both maps empty. -/
def initialState : ServerState := { rooms := [], players := [] }

/-! ## Concrete fixtures used in closed theorems -/

/-- A two-player room `R` (host `A`, guest `B`) whose game the host has
started with target word `DREAM`. -/
def sampleStarted : ServerState :=
  applyOps
    [Op.createRoomOp "A" "R" "DREAM", Op.joinRoomOp "B" "R", Op.startGameOp "A"]
    initialState

/-- An in-progress room where each player has one recorded guess. -/
def sampleMidRoom : Room :=
  { id := "R", players := ["A", "B"], word := "DREAM", gameStarted := true,
    playerGuesses := [("A", ["CRANE"]), ("B", ["HOUSE"])],
    playerGuessStates :=
      [("A", [evaluateGuess "CRANE" "DREAM"]), ("B", [evaluateGuess "HOUSE" "DREAM"])],
    gameOver := false, winner := none, quitReason := none }

/-- The `players` record of `B` inside `sampleStarted`. -/
def samplePlayerB : Player := { id := "B", roomId := "R", isHost := false }

/-- A room with a single occupant whose game never started. -/
def soloState : ServerState :=
  applyOps [Op.createRoomOp "A" "R" "DREAM"] initialState

/-- The room as it stands right after an accepted guess is appended to the
submitter's histories, before end-of-turn resolution flips any flag. -/
def room1Of (room : Room) (pid guess : String) : Room :=
  { room with
      playerGuesses := aset room.playerGuesses pid (guessesOf room pid ++ [guess])
      playerGuessStates :=
        aset room.playerGuessStates pid (statesOf room pid ++ [evaluateGuess guess room.word]) }

/-- A room as the `submitGuess` handler of player `A` may find it when it
resumes after the dictionary lookup: while the lookup was pending the
opponent `B` won, so the room is already finished with winner `B`. -/
def staleFinishedRoom : Room :=
  { id := "R", players := ["A", "B"], word := "DREAM", gameStarted := true,
    playerGuesses := [("A", []), ("B", ["DREAM"])],
    playerGuessStates := [("A", []), ("B", [evaluateGuess "DREAM" "DREAM"])],
    gameOver := true, winner := some "B", quitReason := none }

/-! ## History invariants and trace fixtures -/

/-- The data-model invariant: per player, parallel guess and evaluation
histories of equal length, at most 6 entries. -/
def RoomWF (room : Room) : Prop :=
  ∀ q : String, (guessesOf room q).length = (statesOf room q).length ∧
    (guessesOf room q).length ≤ 6

/-- Every room of the registry satisfies `RoomWF`. -/
def StateWF (st : ServerState) : Prop :=
  ∀ rid room, aget st.rooms rid = some room → RoomWF room

/-- Both histories of `q` are unchanged from `r` to `r2`. -/
def histUnchanged (r r2 : Room) (q : String) : Prop :=
  guessesOf r2 q = guessesOf r q ∧ statesOf r2 q = statesOf r q

/-- Both histories of `q` are empty in `r2`. -/
def histReset (r2 : Room) (q : String) : Prop :=
  guessesOf r2 q = [] ∧ statesOf r2 q = []

/-- Exactly one guess and its evaluation appended for `q`. -/
def histAppend (r r2 : Room) (q g : String) : Prop :=
  guessesOf r2 q = guessesOf r q ++ [g] ∧
  statesOf r2 q = statesOf r q ++ [evaluateGuess g r.word]

/-- A trace reaching a started game in which `A` has already recorded one
guess: the state just before a second `startGame` call. -/
def c7Mid : ServerState :=
  applyOps
    [Op.createRoomOp "A" "R" "DREAM", Op.joinRoomOp "B" "R", Op.startGameOp "A",
     Op.submitGuessOp "A" "CRANE" true] initialState

theorem aget_aset_self {α : Type} (m : List (String × α)) (k : String) (v : α) :
    aget (aset m k v) k = some v := by
  induction m with
  | nil => simp [aset, aget]
  | cons p rest ih =>
      by_cases h : p.1 = k
      · simp [aset, aget, h]
      · simp [aset, aget, h, ih]

theorem aget_aset_ne {α : Type} (m : List (String × α)) (k k2 : String) (v : α)
    (h : k ≠ k2) : aget (aset m k v) k2 = aget m k2 := by
  induction m with
  | nil => simp [aset, aget, h]
  | cons p rest ih =>
      by_cases h2 : p.1 = k
      · simp [aset, aget, h2, h]
      · simp [aset, aget, h2, ih]

theorem aset_self {α : Type} (m : List (String × α)) (k : String) (v : α)
    (h : aget m k = some v) : aset m k v = m := by
  induction m with
  | nil => simp [aget] at h
  | cons p rest ih =>
      obtain ⟨k2, v2⟩ := p
      by_cases h2 : k2 = k
      · subst h2
        simp [aget] at h
        simp [aset, h]
      · simp [aget, h2] at h
        simp [aset, h2, ih h]

theorem aget_adel_self {α : Type} (m : List (String × α)) (k : String) :
    aget (adel m k) k = none := by
  induction m with
  | nil => simp [adel, aget]
  | cons p rest ih =>
      by_cases h : p.1 = k
      · simp [adel, h, ih]
      · simp [adel, aget, h, ih]

theorem aget_adel_ne {α : Type} (m : List (String × α)) (k k2 : String)
    (h : k ≠ k2) : aget (adel m k) k2 = aget m k2 := by
  induction m with
  | nil => simp [adel]
  | cons p rest ih =>
      obtain ⟨ka, va⟩ := p
      by_cases h2 : ka = k
      · subst h2
        simp [adel, aget, ih, h]
      · simp [adel, aget, h2, ih]

theorem pass2_length (ss : List Slot) (tgt : List (Option Char)) :
    (pass2 ss tgt).length = ss.length := by
  induction ss generalizing tgt with
  | nil => simp [pass2]
  | cons s rest ih =>
      cases s with
      | hit c => simp [pass2, ih]
      | pend c =>
          cases h : consumeFirst c tgt with
          | none => simp [pass2, h, ih]
          | some tgt2 => simp [pass2, h, ih]

theorem pass1_fst_length (g t : List Char) :
    (pass1 g t).1.length = min g.length t.length := by
  induction g generalizing t with
  | nil => cases t <;> simp [pass1]
  | cons a gs ih =>
      cases t with
      | nil => simp [pass1]
      | cons b ts =>
          by_cases h : a = b <;> simp [pass1, h, ih] <;> omega

theorem pass1_map_slotChar (g t : List Char) (h : g.length = t.length) :
    (pass1 g t).1.map slotChar = g := by
  induction g generalizing t with
  | nil => simp [pass1]
  | cons a gs ih =>
      cases t with
      | nil => simp at h
      | cons b ts =>
          simp at h
          by_cases hab : a = b <;> simp [pass1, hab, slotChar, ih ts h]

theorem creditCount_eq_creditS (c : Char) (ss : List Slot) (gs : List Char)
    (ls : List LetterState) (h : ss.map slotChar = gs) :
    creditCount c gs ls = creditS c ss ls := by
  induction ss generalizing gs ls with
  | nil =>
      subst h
      cases ls <;> simp [creditCount, creditS]
  | cons s rest ih =>
      subst h
      cases ls with
      | nil => simp [creditCount, creditS]
      | cons l ls2 => simp [creditCount, creditS, ih _ _ rfl]

theorem consumeFirst_optCount (a c : Char) (tgt tgt2 : List (Option Char))
    (h : consumeFirst a tgt = some tgt2) :
    optCount c tgt = optCount c tgt2 + (if a = c then 1 else 0) := by
  induction tgt generalizing tgt2 with
  | nil => simp [consumeFirst] at h
  | cons t ts ih =>
      by_cases h1 : t = some a
      · simp [consumeFirst, h1] at h
        subst h
        by_cases h2 : a = c <;> (simp [optCount, h1, h2]; try omega)
      · simp [consumeFirst, h1] at h
        cases h3 : consumeFirst a ts with
        | none =>
            rw [h3] at h
            simp at h
        | some ts2 =>
            rw [h3] at h
            simp at h
            subst h
            simp only [optCount, ih ts2 h3]
            omega

theorem pass1_conserve (c : Char) (g t : List Char) (h : g.length = t.length) :
    charCount c t = hitCount c (pass1 g t).1 + optCount c (pass1 g t).2 := by
  induction g generalizing t with
  | nil =>
      cases t with
      | nil => simp [pass1, charCount, hitCount, optCount]
      | cons b ts => simp at h
  | cons a gs ih =>
      cases t with
      | nil => simp at h
      | cons b ts =>
          simp at h
          have hih := ih ts h
          by_cases hab : a = b
          · subst hab
            rw [show pass1 (a :: gs) (a :: ts) =
                  (Slot.hit a :: (pass1 gs ts).1, none :: (pass1 gs ts).2) by
                simp [pass1]]
            by_cases hac : a = c <;>
              simp [charCount, hitCount, optCount, hac] <;> omega
          · rw [show pass1 (a :: gs) (b :: ts) =
                  (Slot.pend a :: (pass1 gs ts).1, some b :: (pass1 gs ts).2) by
                simp [pass1, hab]]
            by_cases hbc : b = c <;>
              simp [charCount, hitCount, optCount, hbc] <;> omega

theorem pass2_creditS_le (c : Char) (ss : List Slot) (tgt : List (Option Char)) :
    creditS c ss (pass2 ss tgt) ≤ hitCount c ss + optCount c tgt := by
  induction ss generalizing tgt with
  | nil => simp [pass2, creditS]
  | cons s rest ih =>
      cases s with
      | hit a =>
          have h2 := ih tgt
          by_cases hac : a = c <;>
            simp [pass2, creditS, slotChar, hitCount, hac] <;> omega
      | pend a =>
          cases h : consumeFirst a tgt with
          | none =>
              have h2 := ih tgt
              simp [pass2, h, creditS, slotChar, hitCount]
              omega
          | some tgt2 =>
              have h2 := ih tgt2
              have h3 := consumeFirst_optCount a c tgt tgt2 h
              simp only [pass2, h]
              by_cases hac : a = c <;>
                simp [creditS, slotChar, hitCount, hac] <;>
                simp [hac] at h3 <;> omega

/-- C3: evaluating a 5-character guess against a 5-character target yields
exactly 5 labels, each label is `correct`, `present` or `absent`, and for
every letter the number of guess positions labelled `correct` or `present`
with that letter never exceeds that letter's occurrence count in the
target (pass 2 scans left to right and consumes at most one target
occurrence per guess occurrence). -/
theorem evaluateGuess_labels_and_multiset_bound (guess target : String)
    (hg : guess.length = 5) (ht : target.length = 5) :
    (evaluateGuess guess target).length = 5 ∧
    (∀ l ∈ evaluateGuess guess target,
        l = LetterState.correct ∨ l = LetterState.present ∨ l = LetterState.absent) ∧
    ∀ c : Char,
        creditCount c guess.toList (evaluateGuess guess target) ≤ charCount c target.toList := by
  have hg2 : guess.toList.length = 5 := hg
  have ht2 : target.toList.length = 5 := ht
  have hlen : guess.toList.length = target.toList.length := by rw [hg2, ht2]
  refine ⟨?_, ?_, ?_⟩
  · simp only [evaluateGuess]
    rw [pass2_length, pass1_fst_length, hg2, ht2]
    simp
  · intro l _
    cases l <;> simp
  · intro c
    have hbridge :=
      creditCount_eq_creditS c (pass1 guess.toList target.toList).1 guess.toList
        (evaluateGuess guess target) (pass1_map_slotChar _ _ hlen)
    rw [hbridge]
    have hle :
        creditS c (pass1 guess.toList target.toList).1 (evaluateGuess guess target) ≤
          hitCount c (pass1 guess.toList target.toList).1 +
            optCount c (pass1 guess.toList target.toList).2 := by
      simp only [evaluateGuess]
      exact pass2_creditS_le c _ _
    exact hle.trans (le_of_eq (pass1_conserve c _ _ hlen).symm)

/-- C3 witness: the theorem applied to the concrete guess `ABIDE` and
target `DREAM`. -/
theorem evaluateGuess_labels_and_multiset_bound_witness :
    ("ABIDE" : String).length = 5 ∧ ("DREAM" : String).length = 5 ∧
    ((evaluateGuess "ABIDE" "DREAM").length = 5 ∧
     (∀ l ∈ evaluateGuess "ABIDE" "DREAM",
        l = LetterState.correct ∨ l = LetterState.present ∨ l = LetterState.absent) ∧
     ∀ c : Char,
        creditCount c ("ABIDE" : String).toList (evaluateGuess "ABIDE" "DREAM") ≤
          charCount c ("DREAM" : String).toList) :=
  ⟨rfl, rfl, evaluateGuess_labels_and_multiset_bound "ABIDE" "DREAM" rfl rfl⟩

/-- C4 counterexample: evaluating `ABIDE` against `DREAM` does not produce
the claimed label sequence `[absent, absent, absent, absent, present]`
(A, D and E all occur in `DREAM` away from their guessed positions). -/
theorem evaluateGuess_ABIDE_DREAM_ne_claimed :
    evaluateGuess "ABIDE" "DREAM" ≠
      [LetterState.absent, LetterState.absent, LetterState.absent, LetterState.absent,
       LetterState.present] := by decide

/-- C4 (amended): evaluating the guess `ABIDE` against the target `DREAM`
yields exactly the label sequence `[present, absent, absent, present,
present]`. -/
theorem evaluateGuess_ABIDE_DREAM :
    evaluateGuess "ABIDE" "DREAM" =
      [LetterState.present, LetterState.absent, LetterState.absent, LetterState.present,
       LetterState.present] := by decide

theorem aget_resetEach {α : Type} (m : List (String × α)) (ps : List String) (v : α)
    (q : String) :
    aget (resetEach m ps v) q = if q ∈ ps then some v else aget m q := by
  induction ps generalizing m with
  | nil => simp [resetEach]
  | cons p rest ih =>
      simp only [resetEach, List.foldl_cons] at *
      rw [ih (aset m p v)]
      by_cases hq : q ∈ rest
      · simp [hq]
      · by_cases hqp : q = p
        · subst hqp
          simp [hq, aget_aset_self]
        · simp [hq, hqp, aget_aset_ne m p q v fun hh => hqp hh.symm]

/-- C2: the per-recipient projection reveals the target word and the
literal guesses of every player only once `gameOver` is set; before that
it carries only the recipient's own guess strings, while every player's
evaluation sequences and guess counts are always exposed. -/
theorem createGameStateForPlayer_privacy (room : Room) (pid : String) :
    (room.gameOver = false →
        (createGameStateForPlayer room pid).word = none ∧
        (createGameStateForPlayer room pid).playerGuesses = none ∧
        (createGameStateForPlayer room pid).myGuesses = guessesOf room pid) ∧
    (room.gameOver = true →
        (createGameStateForPlayer room pid).word = some room.word ∧
        (createGameStateForPlayer room pid).playerGuesses =
          some (room.players.map fun q => (q, guessesOf room q))) ∧
    ((createGameStateForPlayer room pid).playerGuessStates =
        room.players.map (fun q => (q, statesOf room q)) ∧
     (createGameStateForPlayer room pid).playerGuessesCount =
        room.players.map (fun q => (q, (guessesOf room q).length)) ∧
     (createGameStateForPlayer room pid).myGuessStates = statesOf room pid) := by
  refine ⟨fun h => ?_, fun h => ?_, ?_⟩ <;> simp [createGameStateForPlayer, *]

/-- C2 witness: the projection of a concrete unfinished room hides the
word and all literal guesses but the recipient's own. -/
theorem createGameStateForPlayer_privacy_witness :
    sampleMidRoom.gameOver = false ∧
    (createGameStateForPlayer sampleMidRoom "A").word = none ∧
    (createGameStateForPlayer sampleMidRoom "A").playerGuesses = none ∧
    (createGameStateForPlayer sampleMidRoom "A").myGuesses = guessesOf sampleMidRoom "A" :=
  ⟨rfl, (createGameStateForPlayer_privacy sampleMidRoom "A").1 rfl⟩

/-- C1 counterexample: when `B` disconnects from the started two-player
room of `sampleStarted`, the room finishes marked quit-induced with the
remaining occupant `A` as its sole projection recipient, but the winner is
set to `null`, not to the remaining player `A`. -/
theorem disconnect_quit_winner_not_remaining :
    (aget (disconnect sampleStarted "B").1.rooms "R").map
        (fun r => (r.gameOver, r.winner, r.quitReason, r.players)) =
      some (true, none, some "opponent_quit", ["A"]) ∧
    (aget (disconnect sampleStarted "B").1.rooms "R").map (fun r => r.winner) ≠
      some (some "A") := by decide

/-- C1 (amended): when a player departs from a started, unfinished
two-player room, the room transitions to finished with winner set to
`null` (no winner is recorded on a quit), the outcome is marked
quit-induced, and the finished projection is delivered to the remaining
occupant only. -/
theorem disconnect_forfeit (st : ServerState) (pid a b : String) (p : Player) (room : Room)
    (hp : aget st.players pid = some p) (hr : aget st.rooms p.roomId = some room)
    (hpl : room.players = [a, b]) (hab : a ≠ b) (hpid : pid = a ∨ pid = b)
    (hs : room.gameStarted = true) (hf : room.gameOver = false) :
    ∃ room2, aget (disconnect st pid).1.rooms p.roomId = some room2 ∧
      room2.gameOver = true ∧ room2.winner = none ∧
      room2.quitReason = some "opponent_quit" ∧
      room2.players = [if pid = a then b else a] ∧
      (disconnect st pid).2 =
        [⟨if pid = a then b else a, EmitMsg.playerLeftMsg pid 1⟩,
         ⟨if pid = a then b else a, EmitMsg.gameOverMsg
            { createGameStateForPlayer room2 (if pid = a then b else a) with
                quitReason := some "opponent_quit" }⟩] := by
  have hrm : removeAllStr room.players pid = [if pid = a then b else a] := by
    rw [hpl]
    rcases hpid with h | h
    · simp [removeAllStr, h, Ne.symm hab]
    · simp [removeAllStr, h, hab, Ne.symm hab]
  simp only [disconnect, hp, hr, hrm, hs, hf]
  simp only [reduceIte, List.map_cons, List.map_nil, List.length_cons, List.length_nil]
  exact ⟨_, aget_aset_self _ _ _, rfl, rfl, rfl, rfl, rfl⟩

/-- C1 witness: the amended theorem applied to the concrete fixture
`sampleStarted` with `B` departing. -/
theorem disconnect_forfeit_witness :
    aget sampleStarted.players "B" = some samplePlayerB ∧
    (∃ room2, aget (disconnect sampleStarted "B").1.rooms samplePlayerB.roomId = some room2 ∧
      room2.gameOver = true ∧ room2.winner = none ∧
      room2.quitReason = some "opponent_quit" ∧
      room2.players = [if "B" = "A" then "B" else "A"] ∧
      (disconnect sampleStarted "B").2 =
        [⟨if "B" = "A" then "B" else "A", EmitMsg.playerLeftMsg "B" 1⟩,
         ⟨if "B" = "A" then "B" else "A", EmitMsg.gameOverMsg
            { createGameStateForPlayer room2 (if "B" = "A" then "B" else "A") with
                quitReason := some "opponent_quit" }⟩]) :=
  ⟨by decide,
   disconnect_forfeit sampleStarted "B" "A" "B" samplePlayerB
     { id := "R", players := ["A", "B"], word := "DREAM", gameStarted := true,
       playerGuesses := [("A", []), ("B", [])], playerGuessStates := [("A", []), ("B", [])],
       gameOver := false, winner := none, quitReason := none }
     (by decide) (by decide) (by decide) (by decide) (Or.inr rfl) (by decide) (by decide)⟩

/-- C8: handling the departure of the same connection twice changes
nothing the second time; a departure of an unregistered player leaves the
registries untouched; a room whose player list becomes empty is deleted
from the registry. -/
theorem disconnect_idempotent (st : ServerState) (pid : String) :
    disconnect (disconnect st pid).1 pid = ((disconnect st pid).1, []) ∧
    (aget st.players pid = none → (disconnect st pid).1 = st) ∧
    (∀ p room, aget st.players pid = some p → aget st.rooms p.roomId = some room →
        removeAllStr room.players pid = [] →
        aget (disconnect st pid).1.rooms p.roomId = none) := by
  have hnone : ∀ s : ServerState, aget s.players pid = none → disconnect s pid = (s, []) := by
    intro s h
    simp [disconnect, h]
  have hplayers : ∀ p, aget st.players pid = some p →
      (disconnect st pid).1.players = adel st.players pid := by
    intro p hp
    simp only [disconnect, hp]
    split
    · rfl
    · split
      · rfl
      · split
        · rfl
        · rfl
  refine ⟨?_, fun h => by rw [hnone st h], fun p room hp hr hrm => ?_⟩
  · cases h : aget st.players pid with
    | none =>
        rw [hnone st h]
        exact hnone st h
    | some p =>
        have h2 : aget (disconnect st pid).1.players pid = none := by
          rw [hplayers p h]
          exact aget_adel_self _ _
        exact hnone _ h2
  · simp only [disconnect, hp, hr, hrm]
    exact aget_adel_self _ _

/-- C8 witness: the idempotence theorem applied to a concrete one-player
room; its only occupant departing empties and deletes the room. -/
theorem disconnect_idempotent_witness :
    aget soloState.players "A" =
      some { id := "A", roomId := "R", isHost := true } ∧
    removeAllStr ["A"] "A" = [] ∧
    aget (disconnect soloState "A").1.rooms "R" = none :=
  ⟨by decide, by decide,
   (disconnect_idempotent soloState "A").2.2
     { id := "A", roomId := "R", isHost := true }
     { id := "R", players := ["A"], word := "DREAM", gameStarted := false,
       playerGuesses := [], playerGuessStates := [], gameOver := false,
       winner := none, quitReason := none }
     (by decide) (by decide) (by decide)⟩

/-- C10: for any registered player whose room exists, `restartGame`
succeeds unconditionally — no host check, no phase check: the room is
forced into the in-progress state with a fresh word, cleared winner and
cleared histories for every listed player. -/
theorem restartGame_unconditional (st : ServerState) (pid newWord : String)
    (p : Player) (room : Room)
    (hp : aget st.players pid = some p) (hr : aget st.rooms p.roomId = some room) :
    ∃ room1, aget (restartGame st pid newWord).1.rooms p.roomId = some room1 ∧
      room1.gameStarted = true ∧ room1.gameOver = false ∧ room1.winner = none ∧
      room1.word = newWord ∧ room1.players = room.players ∧
      ∀ q ∈ room.players, aget room1.playerGuesses q = some [] ∧
        aget room1.playerGuessStates q = some [] := by
  simp only [restartGame, hp, hr]
  refine ⟨_, aget_aset_self _ _ _, rfl, rfl, rfl, rfl, rfl, fun q hq => ⟨?_, ?_⟩⟩
  · rw [aget_resetEach]
    simp [hq]
  · rw [aget_resetEach]
    simp [hq]

/-- C10 witness: restarting the never-started one-player room of
`soloState` forces it into the in-progress state. -/
theorem restartGame_unconditional_witness :
    aget soloState.players "A" =
      some { id := "A", roomId := "R", isHost := true } ∧
    (∃ room1, aget (restartGame soloState "A" "BRAVE").1.rooms "R" = some room1 ∧
      room1.gameStarted = true ∧ room1.gameOver = false ∧ room1.winner = none ∧
      room1.word = "BRAVE" ∧ room1.players = ["A"] ∧
      ∀ q ∈ ["A"], aget room1.playerGuesses q = some [] ∧
        aget room1.playerGuessStates q = some []) :=
  ⟨by decide,
   restartGame_unconditional soloState "A" "BRAVE"
     { id := "A", roomId := "R", isHost := true }
     { id := "R", players := ["A"], word := "DREAM", gameStarted := false,
       playerGuesses := [], playerGuessStates := [], gameOver := false,
       winner := none, quitReason := none }
     (by decide) (by decide)⟩

/-- C9: the post-lookup continuation of `submitGuess` performs no re-check
of the room's state after the suspension — resumed against a room that
already finished while the dictionary lookup was pending, it still appends
the guess to the submitter's history and even overwrites the recorded
winner, contrary to the claimed re-check-before-mutation. -/
theorem submitGuessResume_no_recheck :
    staleFinishedRoom.gameOver = true ∧
    (submitGuessResume staleFinishedRoom "A" "DREAM" true).1.playerGuesses ≠
      staleFinishedRoom.playerGuesses ∧
    (submitGuessResume staleFinishedRoom "A" "DREAM" true).1.winner = some "A" ∧
    staleFinishedRoom.winner = some "B" := by decide

/-- C5: the `submitGuess` validations run in source order and
short-circuit: (a) missing player, missing room, game not started or game
already over is a silent no-op; (b) a malformed guess, (c) an exhausted
guess budget and (d) a failed dictionary lookup each emit exactly one
targeted error to the submitter; in every failure case the registries are
returned unchanged. -/
theorem submitGuess_validation (st : ServerState) (pid guess : String) (iv : Bool) :
    (aget st.players pid = none → submitGuess st pid guess iv = (st, [])) ∧
    (∀ p, aget st.players pid = some p → aget st.rooms p.roomId = none →
        submitGuess st pid guess iv = (st, [])) ∧
    (∀ p room, aget st.players pid = some p → aget st.rooms p.roomId = some room →
        (room.gameStarted = false ∨ room.gameOver = true) →
        submitGuess st pid guess iv = (st, [])) ∧
    (∀ p room, aget st.players pid = some p → aget st.rooms p.roomId = some room →
        room.gameStarted = true → room.gameOver = false →
        validGuessFormat guess = false →
        submitGuess st pid guess iv =
          (st, [⟨pid, EmitMsg.errorMsg "Invalid guess. Must be 5 letters."⟩])) ∧
    (∀ p room, aget st.players pid = some p → aget st.rooms p.roomId = some room →
        room.gameStarted = true → room.gameOver = false →
        validGuessFormat guess = true → 6 ≤ (guessesOf room pid).length →
        submitGuess st pid guess iv =
          (st, [⟨pid, EmitMsg.errorMsg "You have already used all 6 guesses."⟩])) ∧
    (∀ p room, aget st.players pid = some p → aget st.rooms p.roomId = some room →
        room.gameStarted = true → room.gameOver = false →
        validGuessFormat guess = true → (guessesOf room pid).length < 6 →
        iv = false →
        submitGuess st pid guess iv =
          (st, [⟨pid, EmitMsg.errorMsg "Not in dictionary"⟩])) := by
  refine ⟨fun h => ?_, fun p hp hr => ?_, fun p room hp hr hc => ?_,
    fun p room hp hr hs hf hfmt => ?_, fun p room hp hr hs hf hfmt h6 => ?_,
    fun p room hp hr hs hf hfmt hlt hiv => ?_⟩
  · simp [submitGuess, h]
  · simp [submitGuess, hp, hr]
  · simp only [submitGuess, hp, hr]
    rw [if_pos hc]
  · simp only [submitGuess, hp, hr]
    rw [if_neg (by simp [hs, hf]), if_pos hfmt]
  · simp only [submitGuess, hp, hr]
    rw [if_neg (by simp [hs, hf]), if_neg (by simp [hfmt]), if_pos h6]
  · subst hiv
    simp only [submitGuess, hp, hr]
    rw [if_neg (by simp [hs, hf]), if_neg (by simp [hfmt]),
      if_neg (by omega : ¬ 6 ≤ (guessesOf room pid).length)]
    have hroom : aset st.rooms p.roomId room = st.rooms := aset_self _ _ _ hr
    simp only [submitGuessResume, reduceIte, hroom]

/-- C5 witness: in the concrete started room of `sampleStarted`, the
malformed guess `AB` draws exactly the targeted format error and leaves
the registries unchanged. -/
theorem submitGuess_validation_witness :
    validGuessFormat "AB" = false ∧
    submitGuess sampleStarted "A" "AB" true =
      (sampleStarted, [⟨"A", EmitMsg.errorMsg "Invalid guess. Must be 5 letters."⟩]) :=
  ⟨by decide,
   (submitGuess_validation sampleStarted "A" "AB" true).2.2.2.1
     { id := "A", roomId := "R", isHost := true }
     { id := "R", players := ["A", "B"], word := "DREAM", gameStarted := true,
       playerGuesses := [("A", []), ("B", [])], playerGuessStates := [("A", []), ("B", [])],
       gameOver := false, winner := none, quitReason := none }
     (by decide) (by decide) (by decide) (by decide) (by decide)⟩

theorem findOther_ne (l : List String) (pid o : String) (h : findOther l pid = some o) :
    o ≠ pid := by
  induction l with
  | nil => simp [findOther] at h
  | cons q rest ih =>
      by_cases hq : q = pid
      · simp [findOther, hq] at h
        exact ih h
      · simp [findOther, hq] at h
        subst h
        exact hq

theorem bind_aget_aset_other {α : Type} (players : List String) (pid : String)
    (m : List (String × α)) (v : α) :
    ((findOther players pid).bind fun o => aget (aset m pid v) o) =
      ((findOther players pid).bind fun o => aget m o) := by
  cases hfo : findOther players pid with
  | none => rfl
  | some o =>
      simp [aget_aset_ne m pid o v (Ne.symm (findOther_ne players pid o hfo))]

theorem submitGuessResume_histories (room : Room) (pid guess : String) :
    (submitGuessResume room pid guess true).1.playerGuesses =
      aset room.playerGuesses pid (guessesOf room pid ++ [guess]) ∧
    (submitGuessResume room pid guess true).1.playerGuessStates =
      aset room.playerGuessStates pid (statesOf room pid ++ [evaluateGuess guess room.word]) := by
  refine ⟨?_, ?_⟩ <;>
    (simp only [submitGuessResume]
     split
     case isTrue h => exact absurd h (by simp)
     case isFalse h =>
       split
       case isTrue h2 => rfl
       case isFalse h2 =>
         repeat' split
         all_goals rfl)

theorem submitGuessResume_win (room : Room) (pid guess : String)
    (hw : isAllCorrect (evaluateGuess guess room.word) = true) :
    submitGuessResume room pid guess true =
      ({ room1Of room pid guess with gameOver := true, winner := some pid },
       gameOverEmitsAll { room1Of room pid guess with gameOver := true, winner := some pid }) := by
  simp only [submitGuessResume, room1Of]
  rw [if_neg (by simp : ¬ (true = false)), if_pos hw]

theorem submitGuessResume_opponentWon (room : Room) (pid guess : String)
    (hnc : isAllCorrect (evaluateGuess guess room.word) = false)
    (h6 : 6 ≤ (guessesOf room pid).length + 1)
    (hwon : anyAllCorrect (((findOther room.players pid).bind
        fun o => aget room.playerGuessStates o).getD []) = true) :
    submitGuessResume room pid guess true =
      ({ room1Of room pid guess with
          gameOver := true
          winner := findOther room.players pid },
       gameOverEmitsAll
         { room1Of room pid guess with
            gameOver := true
            winner := findOther room.players pid }) := by
  simp only [submitGuessResume]
  rw [if_neg (by simp : ¬ (true = false)), if_neg (by simp [hnc])]
  simp only [bind_aget_aset_other, hwon]
  simp [List.length_append, h6, room1Of]


theorem submitGuessResume_tie (room : Room) (pid guess : String)
    (hnc : isAllCorrect (evaluateGuess guess room.word) = false)
    (h6 : 6 ≤ (guessesOf room pid).length + 1)
    (hnw : anyAllCorrect (((findOther room.players pid).bind
        fun o => aget room.playerGuessStates o).getD []) = false)
    (hog : 6 ≤ (((findOther room.players pid).bind
        fun o => aget room.playerGuesses o).getD []).length) :
    submitGuessResume room pid guess true =
      ({ room1Of room pid guess with gameOver := true, winner := none },
       gameOverEmitsAll { room1Of room pid guess with gameOver := true, winner := none }) := by
  simp only [submitGuessResume]
  rw [if_neg (by simp : ¬ (true = false)), if_neg (by simp [hnc])]
  simp only [bind_aget_aset_other, hnw]
  simp [List.length_append, h6, hog, room1Of]

theorem submitGuessResume_continue (room : Room) (pid guess : String)
    (hf : room.gameOver = false)
    (hnc : isAllCorrect (evaluateGuess guess room.word) = false)
    (hcase : (guessesOf room pid).length + 1 < 6 ∨
      (anyAllCorrect (((findOther room.players pid).bind
          fun o => aget room.playerGuessStates o).getD []) = false ∧
       (((findOther room.players pid).bind
          fun o => aget room.playerGuesses o).getD []).length < 6)) :
    submitGuessResume room pid guess true =
      (room1Of room pid guess, updateEmitsAll (room1Of room pid guess)) := by
  simp only [submitGuessResume]
  rw [if_neg (by simp : ¬ (true = false)), if_neg (by simp [hnc])]
  rcases hcase with hlt | hpair
  · rw [if_neg (show ¬ 6 ≤ (guessesOf room pid ++ [guess]).length by
      simp [List.length_append]
      omega)]
    simp [hf, room1Of]
  · obtain ⟨hnw, hlt⟩ := hpair
    simp only [bind_aget_aset_other, hnw]
    by_cases h6 : 6 ≤ (guessesOf room pid ++ [guess]).length <;>
      simp [h6, hf, room1Of, Nat.not_le.mpr hlt]


/-- C6: end-of-turn resolution after an accepted guess: an all-correct
evaluation finishes the room with the submitter as winner; otherwise, once
the submitter's sixth guess is recorded, an opponent with a past
all-correct evaluation wins, an opponent who also exhausted six guesses
yields a null-winner tie, and in every other case the room stays in
progress and only an incremental update is broadcast. -/
theorem submitGuess_resolution (st : ServerState) (pid guess : String)
    (p : Player) (room : Room)
    (hp : aget st.players pid = some p) (hr : aget st.rooms p.roomId = some room)
    (hs : room.gameStarted = true) (hf : room.gameOver = false)
    (hfmt : validGuessFormat guess = true)
    (hcnt : (guessesOf room pid).length < 6) :
    ∃ room2, aget (submitGuess st pid guess true).1.rooms p.roomId = some room2 ∧
      guessesOf room2 pid = guessesOf room pid ++ [guess] ∧
      statesOf room2 pid = statesOf room pid ++ [evaluateGuess guess room.word] ∧
      (isAllCorrect (evaluateGuess guess room.word) = true →
          room2.gameOver = true ∧ room2.winner = some pid ∧
          (submitGuess st pid guess true).2 = gameOverEmitsAll room2) ∧
      (isAllCorrect (evaluateGuess guess room.word) = false →
        ((guessesOf room pid).length + 1 = 6 →
            anyAllCorrect (((findOther room.players pid).bind
                fun o => aget room.playerGuessStates o).getD []) = true →
            room2.gameOver = true ∧ room2.winner = findOther room.players pid ∧
            (submitGuess st pid guess true).2 = gameOverEmitsAll room2) ∧
        ((guessesOf room pid).length + 1 = 6 →
            anyAllCorrect (((findOther room.players pid).bind
                fun o => aget room.playerGuessStates o).getD []) = false →
            6 ≤ (((findOther room.players pid).bind
                fun o => aget room.playerGuesses o).getD []).length →
            room2.gameOver = true ∧ room2.winner = none ∧
            (submitGuess st pid guess true).2 = gameOverEmitsAll room2) ∧
        (((guessesOf room pid).length + 1 < 6 ∨
            (anyAllCorrect (((findOther room.players pid).bind
                fun o => aget room.playerGuessStates o).getD []) = false ∧
             (((findOther room.players pid).bind
                fun o => aget room.playerGuesses o).getD []).length < 6)) →
            room2.gameOver = false ∧ room2.gameStarted = true ∧
            room2.winner = room.winner ∧
            (submitGuess st pid guess true).2 = updateEmitsAll room2)) := by
  have heq : submitGuess st pid guess true =
      ({ st with rooms := aset st.rooms p.roomId (submitGuessResume room pid guess true).1 },
       (submitGuessResume room pid guess true).2) := by
    simp only [submitGuess, hp, hr]
    rw [if_neg (by simp [hs, hf]), if_neg (by simp [hfmt]),
      if_neg (by omega : ¬ 6 ≤ (guessesOf room pid).length)]
  rw [heq]
  refine ⟨(submitGuessResume room pid guess true).1, aget_aset_self _ _ _, ?_, ?_, ?_, ?_⟩
  · simp [guessesOf, (submitGuessResume_histories room pid guess).1, aget_aset_self]
  · simp [statesOf, (submitGuessResume_histories room pid guess).2, aget_aset_self]
  · intro hw
    rw [submitGuessResume_win room pid guess hw]
    exact ⟨rfl, rfl, rfl⟩
  · intro hnc
    refine ⟨?_, ?_, ?_⟩
    · intro h6 hwon
      rw [submitGuessResume_opponentWon room pid guess hnc (by omega) hwon]
      exact ⟨rfl, rfl, rfl⟩
    · intro h6 hnw hog
      rw [submitGuessResume_tie room pid guess hnc (by omega) hnw hog]
      exact ⟨rfl, rfl, rfl⟩
    · intro hcase
      rw [submitGuessResume_continue room pid guess hf hnc hcase]
      exact ⟨hf, hs, rfl, rfl⟩

theorem aget_aset {α : Type} (m : List (String × α)) (k k2 : String) (v : α) :
    aget (aset m k v) k2 = if k = k2 then some v else aget m k2 := by
  by_cases h : k = k2
  · subst h
    simp [aget_aset_self]
  · simp [h, aget_aset_ne m k k2 v h]

theorem aget_adel {α : Type} (m : List (String × α)) (k k2 : String) :
    aget (adel m k) k2 = if k = k2 then none else aget m k2 := by
  by_cases h : k = k2
  · subst h
    simp [aget_adel_self]
  · simp [h, aget_adel_ne m k k2 h]

theorem createRoom_histories (st : ServerState) (pid roomId word rid : String) (room2 : Room)
    (hg : aget (createRoom st pid roomId word).1.rooms rid = some room2) :
    (∀ q, histReset room2 q) ∨
    ∃ room1, aget st.rooms rid = some room1 ∧ ∀ q, histUnchanged room1 room2 q := by
  simp only [createRoom] at hg
  rw [aget_aset] at hg
  by_cases h : roomId = rid
  · rw [if_pos h] at hg
    injection hg with hg2
    subst hg2
    exact Or.inl fun q => ⟨rfl, rfl⟩
  · rw [if_neg h] at hg
    exact Or.inr ⟨room2, hg, fun q => ⟨rfl, rfl⟩⟩


theorem joinRoom_histories (st : ServerState) (pid roomId rid : String) (room2 : Room)
    (hg : aget (joinRoom st pid roomId).1.rooms rid = some room2) :
    ∃ room1, aget st.rooms rid = some room1 ∧ ∀ q, histUnchanged room1 room2 q := by
  simp only [joinRoom] at hg
  split at hg
  · exact ⟨room2, hg, fun q => ⟨rfl, rfl⟩⟩
  · rename_i room0 heq
    split at hg
    · exact ⟨room2, hg, fun q => ⟨rfl, rfl⟩⟩
    · split at hg
      · exact ⟨room2, hg, fun q => ⟨rfl, rfl⟩⟩
      · simp only at hg
        rw [aget_aset] at hg
        by_cases h : roomId = rid
        · rw [if_pos h] at hg
          injection hg with hg2
          subst hg2
          subst h
          exact ⟨room0, heq, fun q => ⟨rfl, rfl⟩⟩
        · rw [if_neg h] at hg
          exact ⟨room2, hg, fun q => ⟨rfl, rfl⟩⟩

theorem startGame_histories (st : ServerState) (pid rid : String) (room2 : Room)
    (hg : aget (startGame st pid).1.rooms rid = some room2) :
    ∃ room1, aget st.rooms rid = some room1 ∧
      ∀ q, histUnchanged room1 room2 q ∨ histReset room2 q := by
  simp only [startGame] at hg
  split at hg
  · exact ⟨room2, hg, fun q => Or.inl ⟨rfl, rfl⟩⟩
  · rename_i player hpe
    split at hg
    · exact ⟨room2, hg, fun q => Or.inl ⟨rfl, rfl⟩⟩
    · rename_i room0 heq
      split at hg
      · exact ⟨room2, hg, fun q => Or.inl ⟨rfl, rfl⟩⟩
      · split at hg
        · exact ⟨room2, hg, fun q => Or.inl ⟨rfl, rfl⟩⟩
        · simp only at hg
          rw [aget_aset] at hg
          by_cases h : player.roomId = rid
          · rw [if_pos h] at hg
            injection hg with hg2
            subst hg2
            subst h
            refine ⟨room0, heq, fun q => ?_⟩
            by_cases hq : q ∈ room0.players
            · exact Or.inr ⟨by simp [guessesOf, aget_resetEach, hq],
                by simp [statesOf, aget_resetEach, hq]⟩
            · exact Or.inl ⟨by simp [guessesOf, aget_resetEach, hq],
                by simp [statesOf, aget_resetEach, hq]⟩
          · rw [if_neg h] at hg
            exact ⟨room2, hg, fun q => Or.inl ⟨rfl, rfl⟩⟩

theorem restartGame_histories (st : ServerState) (pid newWord rid : String) (room2 : Room)
    (hg : aget (restartGame st pid newWord).1.rooms rid = some room2) :
    ∃ room1, aget st.rooms rid = some room1 ∧
      ∀ q, histUnchanged room1 room2 q ∨ histReset room2 q := by
  simp only [restartGame] at hg
  split at hg
  · exact ⟨room2, hg, fun q => Or.inl ⟨rfl, rfl⟩⟩
  · rename_i player hpe
    split at hg
    · exact ⟨room2, hg, fun q => Or.inl ⟨rfl, rfl⟩⟩
    · rename_i room0 heq
      simp only at hg
      rw [aget_aset] at hg
      by_cases h : player.roomId = rid
      · rw [if_pos h] at hg
        injection hg with hg2
        subst hg2
        subst h
        refine ⟨room0, heq, fun q => ?_⟩
        by_cases hq : q ∈ room0.players
        · exact Or.inr ⟨by simp [guessesOf, aget_resetEach, hq],
            by simp [statesOf, aget_resetEach, hq]⟩
        · exact Or.inl ⟨by simp [guessesOf, aget_resetEach, hq],
            by simp [statesOf, aget_resetEach, hq]⟩
      · rw [if_neg h] at hg
        exact ⟨room2, hg, fun q => Or.inl ⟨rfl, rfl⟩⟩

theorem disconnect_histories (st : ServerState) (pid rid : String) (room2 : Room)
    (hg : aget (disconnect st pid).1.rooms rid = some room2) :
    ∃ room1, aget st.rooms rid = some room1 ∧ ∀ q, histUnchanged room1 room2 q := by
  simp only [disconnect] at hg
  split at hg
  · exact ⟨room2, hg, fun q => ⟨rfl, rfl⟩⟩
  · rename_i player hpe
    split at hg
    · exact ⟨room2, hg, fun q => ⟨rfl, rfl⟩⟩
    · rename_i room0 heq
      split at hg
      · simp only at hg
        rw [aget_adel] at hg
        by_cases h : player.roomId = rid
        · rw [if_pos h] at hg
          exact absurd hg (by simp)
        · rw [if_neg h] at hg
          exact ⟨room2, hg, fun q => ⟨rfl, rfl⟩⟩
      · split at hg
        · simp only at hg
          rw [aget_aset] at hg
          by_cases h : player.roomId = rid
          · rw [if_pos h] at hg
            injection hg with hg2
            subst hg2
            subst h
            exact ⟨room0, heq, fun q => ⟨rfl, rfl⟩⟩
          · rw [if_neg h] at hg
            exact ⟨room2, hg, fun q => ⟨rfl, rfl⟩⟩
        · simp only at hg
          rw [aget_aset] at hg
          by_cases h : player.roomId = rid
          · rw [if_pos h] at hg
            injection hg with hg2
            subst hg2
            subst h
            exact ⟨room0, heq, fun q => ⟨rfl, rfl⟩⟩
          · rw [if_neg h] at hg
            exact ⟨room2, hg, fun q => ⟨rfl, rfl⟩⟩


theorem submitGuessOp_histories (st : ServerState) (pid guess rid : String) (iv : Bool)
    (room2 : Room)
    (hg : aget (submitGuess st pid guess iv).1.rooms rid = some room2) :
    ∃ room1, aget st.rooms rid = some room1 ∧
      ∀ q, histUnchanged room1 room2 q ∨
        (q = pid ∧ (guessesOf room1 q).length < 6 ∧ histAppend room1 room2 q guess) := by
  simp only [submitGuess] at hg
  split at hg
  · exact ⟨room2, hg, fun q => Or.inl ⟨rfl, rfl⟩⟩
  · rename_i player hpe
    split at hg
    · exact ⟨room2, hg, fun q => Or.inl ⟨rfl, rfl⟩⟩
    · rename_i room0 heq
      split at hg
      · exact ⟨room2, hg, fun q => Or.inl ⟨rfl, rfl⟩⟩
      · split at hg
        · exact ⟨room2, hg, fun q => Or.inl ⟨rfl, rfl⟩⟩
        · split at hg
          · exact ⟨room2, hg, fun q => Or.inl ⟨rfl, rfl⟩⟩
          · rename_i hcnt
            simp only at hg
            rw [aget_aset] at hg
            by_cases h : player.roomId = rid
            · rw [if_pos h] at hg
              injection hg with hg2
              subst hg2
              subst h
              refine ⟨room0, heq, fun q => ?_⟩
              cases iv with
              | false => exact Or.inl ⟨rfl, rfl⟩
              | true =>
                  by_cases hq : q = pid
                  · subst hq
                    refine Or.inr ⟨rfl, by omega, ?_, ?_⟩
                    · simp [guessesOf, (submitGuessResume_histories room0 q guess).1,
                        aget_aset_self]
                    · simp [statesOf, (submitGuessResume_histories room0 q guess).2,
                        aget_aset_self]
                  · refine Or.inl ⟨?_, ?_⟩
                    · simp [guessesOf, (submitGuessResume_histories room0 pid guess).1,
                        aget_aset_ne _ pid q _ fun hh => hq hh.symm]
                    · simp [statesOf, (submitGuessResume_histories room0 pid guess).2,
                        aget_aset_ne _ pid q _ fun hh => hq hh.symm]
            · rw [if_neg h] at hg
              exact ⟨room2, hg, fun q => Or.inl ⟨rfl, rfl⟩⟩

theorem stateWF_applyOp (st : ServerState) (op : Op) (h : StateWF st) :
    StateWF (applyOp st op) := by
  intro rid room2 hg
  cases op with
  | createRoomOp pid roomId word =>
      rcases createRoom_histories st pid roomId word rid room2 hg with hreset | ⟨room1, hprev, hq⟩
      · intro q
        rcases hreset q with ⟨h1, h2⟩
        simp [h1, h2]
      · intro q
        rcases hq q with ⟨h1, h2⟩
        rcases h rid room1 hprev q with ⟨e1, e2⟩
        rw [h1, h2]
        exact ⟨e1, e2⟩
  | joinRoomOp pid roomId =>
      rcases joinRoom_histories st pid roomId rid room2 hg with ⟨room1, hprev, hq⟩
      intro q
      rcases hq q with ⟨h1, h2⟩
      rcases h rid room1 hprev q with ⟨e1, e2⟩
      rw [h1, h2]
      exact ⟨e1, e2⟩
  | startGameOp pid =>
      rcases startGame_histories st pid rid room2 hg with ⟨room1, hprev, hq⟩
      intro q
      rcases hq q with ⟨h1, h2⟩ | ⟨h1, h2⟩
      · rcases h rid room1 hprev q with ⟨e1, e2⟩
        rw [h1, h2]
        exact ⟨e1, e2⟩
      · simp [h1, h2]
  | submitGuessOp pid guess iv =>
      rcases submitGuessOp_histories st pid guess rid iv room2 hg with ⟨room1, hprev, hq⟩
      intro q
      rcases hq q with ⟨h1, h2⟩ | ⟨hqpid, hlt, h1, h2⟩
      · rcases h rid room1 hprev q with ⟨e1, e2⟩
        rw [h1, h2]
        exact ⟨e1, e2⟩
      · rcases h rid room1 hprev q with ⟨e1, e2⟩
        rw [h1, h2]
        simp only [List.length_append, List.length_cons, List.length_nil]
        omega
  | restartGameOp pid newWord =>
      rcases restartGame_histories st pid newWord rid room2 hg with ⟨room1, hprev, hq⟩
      intro q
      rcases hq q with ⟨h1, h2⟩ | ⟨h1, h2⟩
      · rcases h rid room1 hprev q with ⟨e1, e2⟩
        rw [h1, h2]
        exact ⟨e1, e2⟩
      · simp [h1, h2]
  | disconnectOp pid =>
      rcases disconnect_histories st pid rid room2 hg with ⟨room1, hprev, hq⟩
      intro q
      rcases hq q with ⟨h1, h2⟩
      rcases h rid room1 hprev q with ⟨e1, e2⟩
      rw [h1, h2]
      exact ⟨e1, e2⟩

theorem stateWF_applyOps (ops : List Op) (st : ServerState) (h : StateWF st) :
    StateWF (applyOps ops st) := by
  induction ops generalizing st with
  | nil => exact h
  | cons op rest ih =>
      simp only [applyOps, List.foldl_cons]
      exact ih _ (stateWF_applyOp st op h)

theorem stateWF_initial : StateWF initialState := by
  intro rid room h
  simp [initialState, aget] at h


/-- C6 witness: in the concrete room of `sampleStarted`, `A` guessing the
target word itself immediately finishes the game with winner `A`. -/
theorem submitGuess_resolution_witness :
    isAllCorrect (evaluateGuess "DREAM" "DREAM") = true ∧
    (aget (submitGuess sampleStarted "A" "DREAM" true).1.rooms "R").map
        (fun r => (r.gameOver, r.winner)) = some (true, some "A") := by
  obtain ⟨room2, h1, h2, h3, h4, h5⟩ :=
    submitGuess_resolution sampleStarted "A" "DREAM"
      { id := "A", roomId := "R", isHost := true }
      { id := "R", players := ["A", "B"], word := "DREAM", gameStarted := true,
        playerGuesses := [("A", []), ("B", [])],
        playerGuessStates := [("A", []), ("B", [])],
        gameOver := false, winner := none, quitReason := none }
      (by decide) (by decide) (by decide) (by decide) (by decide) (by decide)
  obtain ⟨hgo, hw, he⟩ := h4 (by decide)
  refine ⟨by decide, ?_⟩
  rw [h1]
  simp [hgo, hw]

/-- C7 counterexample: in a started, unfinished game (target `DREAM`,
player `A` has recorded the guess `CRANE`), a second `startGame` call —
not a restart — resets the histories to empty while the same game
instance (same word, still started) continues. -/
theorem startGame_resets_midgame :
    (aget c7Mid.rooms "R").map
        (fun r => (guessesOf r "A", r.gameStarted, r.gameOver, r.word)) =
      some (["CRANE"], true, false, "DREAM") ∧
    (aget (applyOp c7Mid (Op.startGameOp "A")).rooms "R").map
        (fun r => (guessesOf r "A", r.gameStarted, r.gameOver, r.word)) =
      some ([], true, false, "DREAM") := by decide

/-- C7 (amended): along every event trace from process start, every room
satisfies the invariant — per player the guess and evaluation sequences
have equal length, at most 6; per event, histories are unchanged, except
that `submitGuess` appends exactly one guess/evaluation pair for the
submitter (only under the 6-guess bound) and that `restartGame` — and
likewise `startGame`, which also reinitializes — reset them to empty. -/
theorem histories_invariant :
    (∀ ops : List Op, StateWF (applyOps ops initialState)) ∧
    (∀ st rid room2 pid roomId word,
        aget (applyOp st (Op.createRoomOp pid roomId word)).rooms rid = some room2 →
        (∀ q, histReset room2 q) ∨
        ∃ room1, aget st.rooms rid = some room1 ∧ ∀ q, histUnchanged room1 room2 q) ∧
    (∀ st rid room2 pid roomId,
        aget (applyOp st (Op.joinRoomOp pid roomId)).rooms rid = some room2 →
        ∃ room1, aget st.rooms rid = some room1 ∧ ∀ q, histUnchanged room1 room2 q) ∧
    (∀ st rid room2 pid,
        aget (applyOp st (Op.startGameOp pid)).rooms rid = some room2 →
        ∃ room1, aget st.rooms rid = some room1 ∧
          ∀ q, histUnchanged room1 room2 q ∨ histReset room2 q) ∧
    (∀ st rid room2 pid guess iv,
        aget (applyOp st (Op.submitGuessOp pid guess iv)).rooms rid = some room2 →
        ∃ room1, aget st.rooms rid = some room1 ∧
          ∀ q, histUnchanged room1 room2 q ∨
            (q = pid ∧ (guessesOf room1 q).length < 6 ∧ histAppend room1 room2 q guess)) ∧
    (∀ st rid room2 pid newWord,
        aget (applyOp st (Op.restartGameOp pid newWord)).rooms rid = some room2 →
        ∃ room1, aget st.rooms rid = some room1 ∧
          ∀ q, histUnchanged room1 room2 q ∨ histReset room2 q) ∧
    (∀ st rid room2 pid,
        aget (applyOp st (Op.disconnectOp pid)).rooms rid = some room2 →
        ∃ room1, aget st.rooms rid = some room1 ∧ ∀ q, histUnchanged room1 room2 q) :=
  ⟨fun ops => stateWF_applyOps ops initialState stateWF_initial,
   fun st rid room2 pid roomId word hg => createRoom_histories st pid roomId word rid room2 hg,
   fun st rid room2 pid roomId hg => joinRoom_histories st pid roomId rid room2 hg,
   fun st rid room2 pid hg => startGame_histories st pid rid room2 hg,
   fun st rid room2 pid guess iv hg => submitGuessOp_histories st pid guess rid iv room2 hg,
   fun st rid room2 pid newWord hg => restartGame_histories st pid newWord rid room2 hg,
   fun st rid room2 pid hg => disconnect_histories st pid rid room2 hg⟩

end WordleServer
